import Mathlib

/-!
Verification of the GorEndir repository (`src/gorendir/`) against its
natural-language specification.

The development shallowly embeds the subtitle-reconciliation logic of
`src/gorendir/downloader.py` (class `YouTubeDownloader`, in particular
`_download_single_subtitle`, `_create_folder`, `_process_single_url`,
`download_subtitles`) and the string utility `sanitize_filename` of
`src/gorendir/utils.py`.  Python strings are modelled as `List Char`
(wrapped into `String` where convenient), the external
`youtube_transcript_api` collaborator is modelled as an oracle record, and
side effects (file writes, log lines, sleeps, translation calls) are
modelled as an explicit event trace.
-/

namespace Gorendir

/-! ## Embedding of `sanitize_filename` (src/gorendir/utils.py, lines 20-78) -/

/-- The `replacements` dict of `sanitize_filename` (utils.py lines 38-50), in
Python dict insertion order; every key and value is a single character, so
each `str.replace` step is a character map.  Note that `'|'` is first mapped
to `'｜'` and a later entry maps `'｜'` to `'│'`, so the later entry rewrites
the output of the earlier one. -/
def replacementPairs : List (Char × Char) :=
  [('/', '⧸'), ('\\', '⧹'), (':', 'ː'), ('*', '∗'), ('?', '？'),
   ('"', '＂'), ('<', '＜'), ('>', '＞'), ('|', '｜'), ('｜', '│'), ('：', 'ː')]

/-- Sequential application of the `replacements` dict: `for old, new in
replacements.items(): filename = filename.replace(old, new)`. -/
def applyReplacements (s : List Char) : List Char :=
  replacementPairs.foldl
    (fun acc p => acc.map (fun c => if c = p.1 then p.2 else c)) s

/-- Membership in the character class of the regex
`r'[<>:"/\\|?*\x00-\x1F]'` (utils.py line 56). -/
def isInvalidChar (c : Char) : Bool :=
  c = '<' || c = '>' || c = ':' || c = '"' || c = '/' || c = '\\' ||
  c = '|' || c = '?' || c = '*' || decide (c.val ≤ 0x1F)

/-- `re.sub(invalid_chars, '_', filename)` (utils.py line 57): every
character of the class is replaced by an underscore. -/
def replaceInvalid (s : List Char) : List Char :=
  s.map (fun c => if isInvalidChar c then '_' else c)

/-- Characters stripped by `filename.strip('. ')` (utils.py line 60). -/
def isDotOrSpace (c : Char) : Bool := c = '.' || c = ' '

/-- `str.strip('. ')`: drop any run of dots and spaces from both ends. -/
def pyStrip (s : List Char) : List Char :=
  ((s.dropWhile isDotOrSpace).reverse.dropWhile isDotOrSpace).reverse

/-- Helper for `re.sub(r'_+', '_', filename)` (utils.py line 63); the
Boolean records whether the previous character was an underscore (in which
case further underscores of the same run are dropped). -/
def collapseUnderAux : List Char → Bool → List Char
  | [], _ => []
  | c :: rest, prevU =>
    if c = '_' then
      if prevU then collapseUnderAux rest true
      else '_' :: collapseUnderAux rest true
    else c :: collapseUnderAux rest false

/-- `re.sub(r'_+', '_', filename)`: collapse each run of underscores to a
single underscore. -/
def collapseUnder (s : List Char) : List Char := collapseUnderAux s false

/-- Index of the last `'.'` in the string, if any. -/
def lastDotIdx (s : List Char) : Option Nat :=
  match s.reverse.findIdx? (· = '.') with
  | none => none
  | some j => some (s.length - 1 - j)

/-- `os.path.splitext` restricted to strings without path separators (the
only strings it is applied to here: `'/'` and `'\\'` were already replaced).
Per CPython: split at the last dot unless every character before it is a
dot (leading dots of the basename are not an extension separator). -/
def splitext (s : List Char) : List Char × List Char :=
  match lastDotIdx s with
  | none => (s, [])
  | some i =>
    if (s.take i).all (· = '.') then (s, [])
    else (s.take i, s.drop i)

/-- Python slice `s[:k]` for an integer bound `k` (negative bounds count
from the end, clamped at zero). -/
def pySliceTo (s : List Char) (k : Int) : List Char :=
  if 0 ≤ k then s.take k.toNat else s.take ((s.length : Int) + k).toNat

/-- First 8 hex digits of `hashlib.md5(filename.encode()).hexdigest()`
(utils.py line 76).  The fallback branch is guarded by
`not filename or filename == '.' or filename == '..'`, so the only values
this is ever applied to inside `sanitize_filename` are `""`, `"."` and
`".."`; their md5 digests are precomputed constants. -/
def md5hex8 (s : List Char) : List Char :=
  if s = [] then "d41d8cd9".toList
  else if s = ['.'] then "5058f1af".toList
  else if s = ['.', '.'] then "58b9e70b".toList
  else []

/-- The fallback name `f'file_{hashlib.md5(filename.encode()).hexdigest()[:8]}'`
(utils.py line 76). -/
def fallbackName (s : List Char) : List Char :=
  "file_".toList ++ md5hex8 s

/-- The truncation step of `sanitize_filename` (utils.py lines 66-72):
`if len(filename) > max_length: name, ext = os.path.splitext(filename);
if len(ext) > 20: ext = ext[:20]; name = name[:max_length - len(ext) - 1];
filename = name + ext`. -/
def truncateToMax (max_length : Nat) (f4 : List Char) : List Char :=
  if max_length < f4.length then
    let ne := splitext f4
    let ext := if 20 < ne.2.length then ne.2.take 20 else ne.2
    pySliceTo ne.1 ((max_length : Int) - ext.length - 1) ++ ext
  else f4

/-- The final non-emptiness guard of `sanitize_filename` (utils.py lines
74-76): `if not filename or filename == '.' or filename == '..':
filename = f'file_{...}'`. -/
def finalizeName (f5 : List Char) : List Char :=
  if f5 = [] ∨ f5 = ['.'] ∨ f5 = ['.', '.'] then fallbackName f5 else f5

/-- `sanitize_filename(filename, max_length)` (utils.py lines 20-78).
`unicodedata.normalize('NFKD', ·)` is kept abstract as the parameter
`nfkd`; every property proved below holds for an arbitrary `nfkd`, hence
in particular for the real NFKD normalization. -/
def sanitize_filename (nfkd : List Char → List Char) (s : List Char)
    (max_length : Nat) : List Char :=
  if s = [] then "untitled".toList
  else
    finalizeName (truncateToMax max_length
      (collapseUnder (pyStrip (replaceInvalid (applyReplacements (nfkd s))))))

/-- `sanitize_filename` on `String`s with the default `max_length = 200`,
with NFKD normalization modelled as the identity map.  All the concrete
strings fed to it in the claims below are plain printable ASCII, on which
NFKD is the identity. -/
def sanitizeStr (s : String) : String :=
  ⟨sanitize_filename id s.toList 200⟩

example : sanitizeStr "01_Title.en.srt" = "01_Title.en.srt" := by decide
example : sanitizeStr "" = "untitled" := by decide
example : sanitizeStr "..." = "file_d41d8cd9" := by decide
example : sanitizeStr "a|b" = "a│b" := by decide
example : sanitizeStr "a__b" = "a_b" := by decide

/-! ## Embedding of the subtitle machinery (src/gorendir/downloader.py) -/

/-- One subtitle track as surfaced by the `youtube_transcript_api`
collaborator (the spec's `TranscriptTrack`): language code, whether the
track is auto-generated, and whether it is translatable. -/
structure Transcript where
  language_code : String
  is_generated : Bool
  is_translatable : Bool
deriving DecidableEq, Repr

/-- Result of `YouTubeTranscriptApi.list_transcripts(video_id)`
(downloader.py line 471): either the track list, or one of the two
video-level exceptions caught at lines 527-532. -/
inductive ListTracksResult where
  | tracks (ts : List Transcript)
  | transcriptsDisabled
  | noTranscriptFound
deriving DecidableEq, Repr

/-- Oracle for the external transcript collaborator: the outcome of the
body of each `try` block.  `fetchResult t` is the formatted SRT content of
`t.fetch()` (or the exception message); `translateResult t lang` is the
content of `t.translate(lang).fetch()` (or the exception message). -/
structure TranscriptEnv where
  fetchResult : Transcript → Except String String
  translateResult : Transcript → String → Except String String

/-- Observable side effects of `_download_single_subtitle`, in program
order.  `writeFile` records the requested language the surrounding loop
iteration was saving, the file name, and the content written; `sleep`
records a `time.sleep` call (the function performs none, but the
constructor gives the claims about cooldown pauses their vocabulary). -/
inductive SubEvent where
  | fetch (t : Transcript)
  | translateCall (src : Transcript) (lang : String)
  | writeFile (lang : String) (name : String) (content : String)
  | logWarn (msg : String)
  | logDebug (msg : String)
  | sleep (seconds : Nat)
deriving DecidableEq, Repr

/-- `f"{numbered_idx:02d}"`: zero-padded to (at least) two digits. -/
def pad2 (n : Nat) : String :=
  if n < 10 then "0" ++ toString n else toString n

/-- The subtitle file name built at downloader.py lines 488-489 and
514-515: `sanitize_filename(f"{numbered_idx:02d}_{title}.{lang}.srt")`. -/
def srtName (numberedIdx : Nat) (title lang : String) : String :=
  sanitizeStr (pad2 numberedIdx ++ "_" ++ title ++ "." ++ lang ++ ".srt")

/-- `numbered_idx = total_videos - idx + 1 if reverse_download else idx`
(downloader.py line 487). -/
def numberedIdx (idx total : Nat) (reverse : Bool) : Nat :=
  if reverse then total - idx + 1 else idx

/-- Python `set.add` on a set modelled as a duplicate-free list. -/
def addToSet (xs : List String) (x : String) : List String :=
  if x ∈ xs then xs else xs ++ [x]

/-- The direct-match loop of `_download_single_subtitle` (downloader.py
lines 477-499): iterate over the collaborator's tracks in order; when a
track's `language_code` is (exactly) a member of the remaining `sublangs`
list, try to fetch and save it — on success add the language to
`downloaded_langs` and remove it from `sublangs`, on an exception log a
warning and continue.  Arguments: remaining tracks, `downloaded_langs` so
far, remaining `sublangs`; returns the final `downloaded_langs`, the final
`sublangs`, and the event trace of the loop. -/
def directPass (env : TranscriptEnv) (title : String) (numIdx : Nat) :
    List Transcript → List String → List String →
    List String × List String × List SubEvent
  | [], downloaded, sublangs => (downloaded, sublangs, [])
  | t :: rest, downloaded, sublangs =>
    if t.language_code ∈ sublangs then
      match env.fetchResult t with
      | .ok content =>
        let name := srtName numIdx title t.language_code
        let r := directPass env title numIdx rest
          (addToSet downloaded t.language_code) (sublangs.erase t.language_code)
        (r.1, r.2.1,
          .fetch t :: .writeFile t.language_code name content :: r.2.2)
      | .error msg =>
        let r := directPass env title numIdx rest downloaded sublangs
        (r.1, r.2.1, .fetch t :: .logWarn msg :: r.2.2)
    else directPass env title numIdx rest downloaded sublangs

/-- The translation loop of `_download_single_subtitle` (downloader.py
lines 506-523): for each language still in `sublangs`, try to translate
from `first` (the first track of the collaborator's list) and save the
result; on an exception log at debug level and continue with the next
language.  No failure is recorded anywhere else, and no sleep is
performed. -/
def translationPass (env : TranscriptEnv) (title : String) (numIdx : Nat)
    (first : Transcript) : List String → List SubEvent
  | [] => []
  | lang :: rest =>
    match env.translateResult first lang with
    | .ok content =>
      .translateCall first lang ::
        .writeFile lang (srtName numIdx title lang) content ::
        translationPass env title numIdx first rest
    | .error msg =>
      .translateCall first lang :: .logDebug msg ::
        translationPass env title numIdx first rest

/-- The dictionary returned by `_download_single_subtitle`: the `success`
flag, the `error` message (present only on failure), and the
`downloaded` set of directly saved languages (present only on success;
languages saved via translation are not added to it, and failed languages
appear nowhere in the dictionary). -/
structure SubReturn where
  success : Bool
  error : Option String
  downloaded : List String
deriving DecidableEq, Repr

/-- `_download_single_subtitle` (downloader.py lines 460-535), for a video
with a known id: the video-level exceptions short-circuit with a
video-level error; otherwise the direct pass runs over all tracks, and if
languages remain, every remaining language is translated from
`next((t for t in transcript_list), None)` — the first track, if any.
Returns the Python return dictionary together with the event trace. -/
def download_single_subtitle (env : TranscriptEnv)
    (listRes : ListTracksResult) (subtitle_languages : List String)
    (title : String) (idx total : Nat) (reverse : Bool) :
    SubReturn × List SubEvent :=
  match listRes with
  | .transcriptsDisabled => (⟨false, some "Subtitles disabled", []⟩, [])
  | .noTranscriptFound => (⟨false, some "No subtitles found", []⟩, [])
  | .tracks ts =>
    let n := numberedIdx idx total reverse
    let d := directPass env title n ts [] subtitle_languages
    let ev2 :=
      if d.2.1 = [] then []
      else
        match ts.head? with
        | some first => translationPass env title n first d.2.1
        | none => []
    (⟨true, none, d.1⟩, d.2.2 ++ ev2)

/-- Languages for which a subtitle file was written during a trace. -/
def writtenLangs (evs : List SubEvent) : List String :=
  evs.filterMap (fun e =>
    match e with
    | .writeFile lang _ _ => some lang
    | _ => none)

/-- File names written during a trace. -/
def writtenFiles (evs : List SubEvent) : List String :=
  evs.filterMap (fun e =>
    match e with
    | .writeFile _ name _ => some name
    | _ => none)

/-- Whether a trace contains any `time.sleep` call. -/
def hasSleep (evs : List SubEvent) : Bool :=
  evs.any (fun e =>
    match e with
    | .sleep _ => true
    | _ => false)

/-- Source languages of the translation calls in a trace. -/
def translateSources (evs : List SubEvent) : List String :=
  evs.filterMap (fun e =>
    match e with
    | .translateCall src _ => some src.language_code
    | _ => none)

/-- Target languages of the translation calls in a trace (one call is
attempted per remaining language, whether or not it succeeds). -/
def translateTargets (evs : List SubEvent) : List String :=
  evs.filterMap (fun e =>
    match e with
    | .translateCall _ lang => some lang
    | _ => none)

/-- Tracks on which `transcript.fetch()` was called during a trace. -/
def fetchedTracks (evs : List SubEvent) : List Transcript :=
  evs.filterMap (fun e =>
    match e with
    | .fetch t => some t
    | _ => none)

/-! ## File-system model for the subtitle writes -/

/-- A flat file system: association list from file name to content. -/
def FS := List (String × String)

/-- `open(name, "w").write(content)`: truncate-and-write, unconditionally
replacing any existing file of that name. -/
def setFile : FS → String → String → FS
  | [], n, c => [(n, c)]
  | (n0, c0) :: rest, n, c =>
    if n0 = n then (n, c) :: rest else (n0, c0) :: setFile rest n c

/-- Content of a file, if present. -/
def getFile (fs : FS) (name : String) : Option String :=
  match fs with
  | [] => none
  | (n0, c0) :: rest => if n0 = name then some c0 else getFile rest name

/-- Apply the `writeFile` effects of a trace to a file system, in order. -/
def applyWrites (fs : FS) (evs : List SubEvent) : FS :=
  evs.foldl
    (fun acc e =>
      match e with
      | .writeFile _ n c => setFile acc n c
      | _ => acc) fs

/-! ## Embedding of the task-level flow (`_process_single_url`,
`_create_folder`, `download_subtitles`) -/

/-- Overall status of one URL task as classified by `download_video`
(downloader.py lines 310-326) from the dictionary returned by
`_process_single_url`. -/
inductive TaskStatus where
  | success
  | skipped (msg : String)
  | failed (err : String)
deriving DecidableEq, Repr

/-- Executable substring test (Python's `in` on strings). -/
def containsSubstr (s pat : String) : Bool :=
  (List.range (s.toList.length + 1)).any
    (fun i => pat.toList.isPrefixOf (s.toList.drop i))

/-- The guard at the top of `_create_folder` (downloader.py lines 166-167):
`if not force and url in self.downloaded_urls: raise DownloadError(
f"URL already downloaded: {url}")`.  This runs before any folder creation,
download or subtitle work. -/
def createFolderGate (downloadedUrls : List String) (url : String)
    (force : Bool) : Except String Unit :=
  if force = false ∧ url ∈ downloadedUrls then
    .error ("URL already downloaded: " ++ url)
  else .ok ()

/-- `_process_single_url` (downloader.py lines 359-401), with the external
steps abstracted: `vidId` is the result of `_extract_video_id`,
`infoResult` the outcome of `_get_video_info_with_retry`, and
`subtitleRuns` the per-video subtitle outcomes that `download_subtitles`
would produce (executed only when the task is not skipped; their return
dictionaries are discarded by the caller — `download_subtitles` only logs
them — so the task status never depends on them).  A `DownloadError` whose
message contains "already downloaded" is caught and turned into a skip
(lines 396-398); any other error makes the task fail.  Returns the task
status together with the file-write trace the task performed. -/
def processSingleUrl (vidId : Option String)
    (infoResult : Except String Unit) (downloadedUrls : List String)
    (force : Bool) (subtitleRuns : List (SubReturn × List SubEvent)) :
    TaskStatus × List SubEvent :=
  match vidId with
  | none => (.failed "Invalid YouTube URL", [])
  | some v =>
    let canonical := "https://www.youtube.com/watch?v=" ++ v
    match infoResult with
    | .error e => (.failed e, [])
    | .ok _ =>
      match createFolderGate downloadedUrls canonical force with
      | .error msg =>
        if containsSubstr msg "already downloaded" then (.skipped msg, [])
        else (.failed msg, [])
      | .ok _ => (.success, (subtitleRuns.map Prod.snd).flatten)

/-- `MAX_WORKERS = 3` (downloader.py line 21), passed to
`ThreadPoolExecutor(max_workers=self.max_workers)` at line 436. -/
def MAX_WORKERS : Nat := 3

/-- Scheduling events of `download_subtitles` (downloader.py lines
435-458): submitting one video's subtitle task to the executor, and
waiting on a completed future in the `as_completed` loop. -/
inductive ExecEvent where
  | submit (idx : Nat)
  | awaitCompletion
deriving DecidableEq, Repr

/-- The scheduling trace of `download_subtitles` for `n` videos, read off
lines 436-458: the first loop submits every task to the thread pool
(no waiting), and only then does the `as_completed` loop wait for the
results. -/
def downloadSubtitlesTrace (n : Nat) : List ExecEvent :=
  ((List.range n).map ExecEvent.submit) ++
    ((List.range n).map (fun _ => ExecEvent.awaitCompletion))

/-! ## Definitions taken from the spec's words, for comparison -/

/-- The canonical English-variant set of spec §4.1. -/
def englishVariants : List String := ["en", "en-US", "en-GB"]

/-- Modelled from the spec (§4.1 `selectSource`), for comparison with the
code's source selection: a manual English-variant track, else a generated
English-variant track, else any manual track, else any translatable
track, else none. -/
def selectSource_spec (tracks : List Transcript) : Option Transcript :=
  match tracks.find? (fun t =>
      !t.is_generated && englishVariants.contains t.language_code) with
  | some t => some t
  | none =>
    match tracks.find? (fun t =>
        t.is_generated && englishVariants.contains t.language_code) with
    | some t => some t
    | none =>
      match tracks.find? (fun t => !t.is_generated) with
      | some t => some t
      | none => tracks.find? (fun t => t.is_translatable)

/-- `next((t for t in transcript_list), None)` (downloader.py line 503):
the source actually used for every translation is simply the first track
the collaborator lists. -/
def firstTranscript (tracks : List Transcript) : Option Transcript :=
  tracks.head?

/-- Modelled from the spec (§5): the scheduling trace sequential
subtitle processing would produce — each video's work is awaited before
the next is begun. -/
def sequentialTrace_spec (n : Nat) : List ExecEvent :=
  ((List.range n).map
    (fun i => [ExecEvent.submit i, ExecEvent.awaitCompletion])).flatten

/-! ## Lemmas about `sanitize_filename` -/

lemma fallbackName_props (s : List Char) :
    fallbackName s ≠ [] ∧ (fallbackName s).length ≤ 13 ∧
    (∀ c ∈ fallbackName s, isInvalidChar c = false) ∧
    fallbackName s ≠ ['.'] ∧ fallbackName s ≠ ['.', '.'] := by
  unfold fallbackName md5hex8
  split_ifs <;> decide

lemma replaceInvalid_clean (s : List Char) :
    ∀ c ∈ replaceInvalid s, isInvalidChar c = false := by
  intro c hc
  rcases List.mem_map.mp hc with ⟨a, _, rfl⟩
  cases hb : isInvalidChar a with
  | true => simp only [hb, if_true]; decide
  | false => simp [hb]

lemma mem_pyStrip {s : List Char} {c : Char} (h : c ∈ pyStrip s) : c ∈ s := by
  unfold pyStrip at h
  rw [List.mem_reverse] at h
  have h2 : c ∈ (s.dropWhile isDotOrSpace).reverse :=
    (List.dropWhile_sublist _).subset h
  rw [List.mem_reverse] at h2
  exact (List.dropWhile_sublist _).subset h2

lemma mem_collapseUnderAux {c : Char} :
    ∀ (s : List Char) (b : Bool), c ∈ collapseUnderAux s b → c ∈ s := by
  intro s
  induction s with
  | nil => intro b h; simp [collapseUnderAux] at h
  | cons a rest ih =>
    intro b h
    unfold collapseUnderAux at h
    by_cases ha : a = '_'
    · subst ha
      simp only [if_pos rfl] at h
      by_cases hb : b = true
      · subst hb
        simp only [if_pos rfl] at h
        exact List.mem_cons_of_mem _ (ih true h)
      · rw [if_neg hb] at h
        rcases List.mem_cons.mp h with h | h
        · simp [h]
        · exact List.mem_cons_of_mem _ (ih true h)
    · rw [if_neg ha] at h
      rcases List.mem_cons.mp h with h | h
      · simp [h]
      · exact List.mem_cons_of_mem _ (ih false h)

lemma mem_collapseUnder {s : List Char} {c : Char}
    (h : c ∈ collapseUnder s) : c ∈ s :=
  mem_collapseUnderAux s false h

lemma splitext_fst_subset (s : List Char) : (splitext s).1 ⊆ s := by
  unfold splitext
  cases h : lastDotIdx s with
  | none => simp
  | some i =>
    dsimp only
    split_ifs
    · simp
    · exact List.take_subset i s

lemma splitext_snd_subset (s : List Char) : (splitext s).2 ⊆ s := by
  unfold splitext
  cases h : lastDotIdx s with
  | none => simp
  | some i =>
    dsimp only
    split_ifs
    · simp
    · exact List.drop_subset i s

lemma pySliceTo_subset (s : List Char) (k : Int) : pySliceTo s k ⊆ s := by
  unfold pySliceTo
  split_ifs <;> exact List.take_subset _ _

lemma pySliceTo_length_le (s : List Char) (k : Int) (h : 0 ≤ k) :
    (pySliceTo s k).length ≤ k.toNat := by
  unfold pySliceTo
  rw [if_pos h]
  exact List.length_take_le _ _

lemma truncateToMax_subset (ml : Nat) (f4 : List Char) :
    truncateToMax ml f4 ⊆ f4 := by
  unfold truncateToMax
  split_ifs with h
  · intro c hc
    rcases List.mem_append.mp hc with hc | hc
    · exact splitext_fst_subset f4 (pySliceTo_subset _ _ hc)
    · revert hc
      split_ifs with h2 <;> intro hc
      · exact splitext_snd_subset f4 (List.take_subset _ _ hc)
      · exact splitext_snd_subset f4 hc
  · exact fun c hc => hc

lemma truncateToMax_length_200 (f4 : List Char) :
    (truncateToMax 200 f4).length ≤ 200 := by
  unfold truncateToMax
  split_ifs with h
  · rw [List.length_append]
    generalize hE : (if 20 < (splitext f4).2.length
      then (splitext f4).2.take 20 else (splitext f4).2) = E
    have hext : E.length ≤ 20 := by
      rw [← hE]
      split_ifs with h2
      · simp [List.length_take]
      · omega
    refine le_trans (Nat.add_le_add_right (pySliceTo_length_le _ _ ?_) _) ?_ <;>
      omega
  · omega

lemma finalizeName_props (f5 : List Char)
    (hclean : ∀ c ∈ f5, isInvalidChar c = false) (hlen : f5.length ≤ 200) :
    finalizeName f5 ≠ [] ∧ (finalizeName f5).length ≤ 200 ∧
    (∀ c ∈ finalizeName f5, isInvalidChar c = false) ∧
    finalizeName f5 ≠ ['.'] ∧ finalizeName f5 ≠ ['.', '.'] := by
  unfold finalizeName
  split_ifs with h
  · obtain ⟨h1, h2, h3, h4, h5⟩ := fallbackName_props f5
    exact ⟨h1, by omega, h3, h4, h5⟩
  · push_neg at h
    exact ⟨h.1, hlen, hclean, h.2.1, h.2.2⟩

/-- C10: for every input string (and every behavior of the abstract NFKD
normalization step), `sanitize_filename` at the default `max_length = 200`
returns a non-empty name of length at most 200 that contains no character
of the invalid class `<>:"/\|?*` and no ASCII control character, and is
never `.` or `..`; empty and all-invalid inputs map to a generated
non-empty fallback name. -/
theorem C10_sanitize_filename_safe (nfkd : List Char → List Char)
    (s : List Char) :
    sanitize_filename nfkd s 200 ≠ [] ∧
    (sanitize_filename nfkd s 200).length ≤ 200 ∧
    (sanitize_filename nfkd s 200).all (fun c => !isInvalidChar c) = true ∧
    sanitize_filename nfkd s 200 ≠ ['.'] ∧
    sanitize_filename nfkd s 200 ≠ ['.', '.'] := by
  have key : sanitize_filename nfkd s 200 ≠ [] ∧
      (sanitize_filename nfkd s 200).length ≤ 200 ∧
      (∀ c ∈ sanitize_filename nfkd s 200, isInvalidChar c = false) ∧
      sanitize_filename nfkd s 200 ≠ ['.'] ∧
      sanitize_filename nfkd s 200 ≠ ['.', '.'] := by
    unfold sanitize_filename
    split_ifs with h
    · refine ⟨?_, ?_, ?_, ?_, ?_⟩ <;> decide
    · apply finalizeName_props
      · intro c hc
        have hc2 := truncateToMax_subset _ _ hc
        have hc3 := mem_collapseUnder hc2
        have hc4 := mem_pyStrip hc3
        exact replaceInvalid_clean _ c hc4
      · exact truncateToMax_length_200 _
  obtain ⟨h1, h2, h3, h4, h5⟩ := key
  refine ⟨h1, h2, ?_, h4, h5⟩
  rw [List.all_eq_true]
  intro c hc
  simpa using h3 c hc

/-! ## Step lemmas for the two passes -/

lemma mem_addToSet_iff (dl : List String) (x L : String) :
    L ∈ addToSet dl x ↔ (L ∈ dl ∨ L = x) := by
  unfold addToSet
  split_ifs with h
  · constructor
    · exact fun hL => Or.inl hL
    · rintro (hL | rfl)
      · exact hL
      · exact h
  · simp

lemma directPass_cons_ok (env : TranscriptEnv) (title : String) (n : Nat)
    (t : Transcript) (rest : List Transcript) (dl sl : List String)
    (h : t.language_code ∈ sl) (content : String)
    (hfr : env.fetchResult t = .ok content) :
    directPass env title n (t :: rest) dl sl =
      ((directPass env title n rest (addToSet dl t.language_code)
          (sl.erase t.language_code)).1,
       (directPass env title n rest (addToSet dl t.language_code)
          (sl.erase t.language_code)).2.1,
       .fetch t ::
         .writeFile t.language_code (srtName n title t.language_code) content ::
         (directPass env title n rest (addToSet dl t.language_code)
            (sl.erase t.language_code)).2.2) := by
  simp only [directPass, if_pos h, hfr]

lemma directPass_cons_err (env : TranscriptEnv) (title : String) (n : Nat)
    (t : Transcript) (rest : List Transcript) (dl sl : List String)
    (h : t.language_code ∈ sl) (msg : String)
    (hfr : env.fetchResult t = .error msg) :
    directPass env title n (t :: rest) dl sl =
      ((directPass env title n rest dl sl).1,
       (directPass env title n rest dl sl).2.1,
       .fetch t :: .logWarn msg :: (directPass env title n rest dl sl).2.2) := by
  simp only [directPass, if_pos h, hfr]

lemma directPass_cons_skip (env : TranscriptEnv) (title : String) (n : Nat)
    (t : Transcript) (rest : List Transcript) (dl sl : List String)
    (h : ¬ t.language_code ∈ sl) :
    directPass env title n (t :: rest) dl sl =
      directPass env title n rest dl sl := by
  simp only [directPass, if_neg h]

lemma translationPass_cons_ok (env : TranscriptEnv) (title : String) (n : Nat)
    (first : Transcript) (lang : String) (rest : List String)
    (content : String) (htr : env.translateResult first lang = .ok content) :
    translationPass env title n first (lang :: rest) =
      .translateCall first lang ::
        .writeFile lang (srtName n title lang) content ::
        translationPass env title n first rest := by
  simp only [translationPass, htr]

lemma translationPass_cons_err (env : TranscriptEnv) (title : String)
    (n : Nat) (first : Transcript) (lang : String) (rest : List String)
    (msg : String) (htr : env.translateResult first lang = .error msg) :
    translationPass env title n first (lang :: rest) =
      .translateCall first lang :: .logDebug msg ::
        translationPass env title n first rest := by
  simp only [translationPass, htr]

/-! ## Invariants of the direct-match pass -/

lemma directPass_mem_iff (env : TranscriptEnv) (title : String) (n : Nat) :
    ∀ (ts : List Transcript) (dl sl : List String) (L : String),
    (L ∈ (directPass env title n ts dl sl).1 ∨
      L ∈ (directPass env title n ts dl sl).2.1) ↔ (L ∈ dl ∨ L ∈ sl) := by
  intro ts
  induction ts with
  | nil => intro dl sl L; simp [directPass]
  | cons t rest ih =>
    intro dl sl L
    by_cases hmem : t.language_code ∈ sl
    · cases hfr : env.fetchResult t with
      | ok content =>
        rw [directPass_cons_ok env title n t rest dl sl hmem content hfr]
        dsimp only
        rw [ih]
        rw [mem_addToSet_iff]
        by_cases hL : L = t.language_code
        · subst hL
          simp [hmem]
        · rw [List.mem_erase_of_ne hL]
          simp [hL]
      | error msg =>
        rw [directPass_cons_err env title n t rest dl sl hmem msg hfr]
        dsimp only
        exact ih dl sl L
    · rw [directPass_cons_skip env title n t rest dl sl hmem]
      exact ih dl sl L

lemma directPass_sublangs_subset (env : TranscriptEnv) (title : String)
    (n : Nat) :
    ∀ (ts : List Transcript) (dl sl : List String) (L : String),
    L ∈ (directPass env title n ts dl sl).2.1 → L ∈ sl := by
  intro ts
  induction ts with
  | nil => intro dl sl L h; simpa [directPass] using h
  | cons t rest ih =>
    intro dl sl L h
    by_cases hmem : t.language_code ∈ sl
    · cases hfr : env.fetchResult t with
      | ok content =>
        rw [directPass_cons_ok env title n t rest dl sl hmem content hfr] at h
        dsimp only at h
        exact List.erase_subset _ _ (ih _ _ _ h)
      | error msg =>
        rw [directPass_cons_err env title n t rest dl sl hmem msg hfr] at h
        dsimp only at h
        exact ih _ _ _ h
    · rw [directPass_cons_skip env title n t rest dl sl hmem] at h
      exact ih _ _ _ h

lemma directPass_sublangs_nodup (env : TranscriptEnv) (title : String)
    (n : Nat) :
    ∀ (ts : List Transcript) (dl sl : List String), sl.Nodup →
    (directPass env title n ts dl sl).2.1.Nodup := by
  intro ts
  induction ts with
  | nil => intro dl sl h; simpa [directPass] using h
  | cons t rest ih =>
    intro dl sl h
    by_cases hmem : t.language_code ∈ sl
    · cases hfr : env.fetchResult t with
      | ok content =>
        rw [directPass_cons_ok env title n t rest dl sl hmem content hfr]
        dsimp only
        exact ih _ _ (h.erase _)
      | error msg =>
        rw [directPass_cons_err env title n t rest dl sl hmem msg hfr]
        dsimp only
        exact ih _ _ h
    · rw [directPass_cons_skip env title n t rest dl sl hmem]
      exact ih _ _ h

lemma directPass_downloaded_nodup (env : TranscriptEnv) (title : String)
    (n : Nat) :
    ∀ (ts : List Transcript) (dl sl : List String), dl.Nodup →
    (directPass env title n ts dl sl).1.Nodup := by
  intro ts
  induction ts with
  | nil => intro dl sl h; simpa [directPass] using h
  | cons t rest ih =>
    intro dl sl h
    by_cases hmem : t.language_code ∈ sl
    · cases hfr : env.fetchResult t with
      | ok content =>
        rw [directPass_cons_ok env title n t rest dl sl hmem content hfr]
        dsimp only
        apply ih
        unfold addToSet
        split_ifs with h2
        · exact h
        · simpa [List.nodup_append] using ⟨h, h2⟩
      | error msg =>
        rw [directPass_cons_err env title n t rest dl sl hmem msg hfr]
        dsimp only
        exact ih _ _ h
    · rw [directPass_cons_skip env title n t rest dl sl hmem]
      exact ih _ _ h

lemma directPass_disjoint (env : TranscriptEnv) (title : String) (n : Nat) :
    ∀ (ts : List Transcript) (dl sl : List String), sl.Nodup →
    (∀ L, L ∈ dl → ¬ L ∈ sl) →
    ∀ L, L ∈ (directPass env title n ts dl sl).1 →
      ¬ L ∈ (directPass env title n ts dl sl).2.1 := by
  intro ts
  induction ts with
  | nil =>
    intro dl sl _ hdisj L h1 h2
    simp only [directPass] at h1 h2
    exact hdisj L h1 h2
  | cons t rest ih =>
    intro dl sl hnd hdisj L h1 h2
    by_cases hmem : t.language_code ∈ sl
    · cases hfr : env.fetchResult t with
      | ok content =>
        rw [directPass_cons_ok env title n t rest dl sl hmem content hfr]
          at h1 h2
        dsimp only at h1 h2
        refine ih _ _ (hnd.erase _) ?_ L h1 h2
        intro M hM hM2
        rcases (mem_addToSet_iff dl t.language_code M).mp hM with hM | rfl
        · exact hdisj M hM (List.erase_subset _ _ hM2)
        · exact ((List.Nodup.mem_erase_iff hnd).mp hM2).1 rfl
      | error msg =>
        rw [directPass_cons_err env title n t rest dl sl hmem msg hfr]
          at h1 h2
        dsimp only at h1 h2
        exact ih _ _ hnd hdisj L h1 h2
    · rw [directPass_cons_skip env title n t rest dl sl hmem] at h1 h2
      exact ih _ _ hnd hdisj L h1 h2

/-! ## Trace lemmas -/

/-- Whether `first.translate(lang)` followed by `.fetch()` succeeds. -/
def translateOk (env : TranscriptEnv) (first : Transcript)
    (lang : String) : Bool :=
  match env.translateResult first lang with
  | .ok _ => true
  | .error _ => false

lemma directPass_writtenLangs (env : TranscriptEnv) (title : String)
    (n : Nat) :
    ∀ (ts : List Transcript) (dl sl : List String), sl.Nodup →
    (∀ L, L ∈ dl → ¬ L ∈ sl) →
    dl ++ writtenLangs (directPass env title n ts dl sl).2.2 =
      (directPass env title n ts dl sl).1 := by
  intro ts
  induction ts with
  | nil => intro dl sl _ _; simp [directPass, writtenLangs]
  | cons t rest ih =>
    intro dl sl hnd hdisj
    by_cases hmem : t.language_code ∈ sl
    · have hnotdl : ¬ t.language_code ∈ dl := fun h => hdisj _ h hmem
      have haddeq : addToSet dl t.language_code = dl ++ [t.language_code] := by
        unfold addToSet
        rw [if_neg hnotdl]
      cases hfr : env.fetchResult t with
      | ok content =>
        rw [directPass_cons_ok env title n t rest dl sl hmem content hfr]
        dsimp only
        rw [show writtenLangs (.fetch t ::
            .writeFile t.language_code (srtName n title t.language_code)
              content ::
            (directPass env title n rest (addToSet dl t.language_code)
              (sl.erase t.language_code)).2.2) =
          t.language_code :: writtenLangs (directPass env title n rest
            (addToSet dl t.language_code)
            (sl.erase t.language_code)).2.2 from by
          simp [writtenLangs]]
        have hpre : ∀ L, L ∈ addToSet dl t.language_code →
            ¬ L ∈ sl.erase t.language_code := by
          intro M hM hM2
          rcases (mem_addToSet_iff dl t.language_code M).mp hM with hM | rfl
          · exact hdisj M hM (List.erase_subset _ _ hM2)
          · exact ((List.Nodup.mem_erase_iff hnd).mp hM2).1 rfl
        have := ih (addToSet dl t.language_code)
          (sl.erase t.language_code) (hnd.erase _) hpre
        rw [← this, haddeq]
        simp
      | error msg =>
        rw [directPass_cons_err env title n t rest dl sl hmem msg hfr]
        dsimp only
        rw [show writtenLangs (.fetch t :: .logWarn msg ::
            (directPass env title n rest dl sl).2.2) =
          writtenLangs (directPass env title n rest dl sl).2.2 from by
          simp [writtenLangs]]
        exact ih dl sl hnd hdisj
    · rw [directPass_cons_skip env title n t rest dl sl hmem]
      exact ih dl sl hnd hdisj

lemma translationPass_writtenLangs (env : TranscriptEnv) (title : String)
    (n : Nat) (first : Transcript) :
    ∀ sl : List String,
    writtenLangs (translationPass env title n first sl) =
      sl.filter (translateOk env first) := by
  intro sl
  induction sl with
  | nil => simp [translationPass, writtenLangs]
  | cons lang rest ih =>
    cases htr : env.translateResult first lang with
    | ok content =>
      rw [translationPass_cons_ok env title n first lang rest content htr]
      have hok : translateOk env first lang = true := by
        unfold translateOk
        rw [htr]
      simp [writtenLangs, hok, List.filter_cons] at ih ⊢
      exact ih
    | error msg =>
      rw [translationPass_cons_err env title n first lang rest msg htr]
      have hok : translateOk env first lang = false := by
        unfold translateOk
        rw [htr]
      simp [writtenLangs, hok, List.filter_cons] at ih ⊢
      exact ih

lemma translationPass_targets (env : TranscriptEnv) (title : String)
    (n : Nat) (first : Transcript) :
    ∀ sl : List String,
    translateTargets (translationPass env title n first sl) = sl := by
  intro sl
  induction sl with
  | nil => simp [translationPass, translateTargets]
  | cons lang rest ih =>
    cases htr : env.translateResult first lang with
    | ok content =>
      rw [translationPass_cons_ok env title n first lang rest content htr]
      simp [translateTargets] at ih ⊢
      exact ih
    | error msg =>
      rw [translationPass_cons_err env title n first lang rest msg htr]
      simp [translateTargets] at ih ⊢
      exact ih

lemma translationPass_sources (env : TranscriptEnv) (title : String)
    (n : Nat) (first : Transcript) :
    ∀ (sl : List String) (x : String),
    x ∈ translateSources (translationPass env title n first sl) →
      x = first.language_code := by
  intro sl
  induction sl with
  | nil => intro x h; simp [translationPass, translateSources] at h
  | cons lang rest ih =>
    intro x h
    cases htr : env.translateResult first lang with
    | ok content =>
      rw [translationPass_cons_ok env title n first lang rest content htr] at h
      simp [translateSources] at h
      rcases h with h | h
      · exact h
      · exact ih x (by simpa [translateSources] using h)
    | error msg =>
      rw [translationPass_cons_err env title n first lang rest msg htr] at h
      simp [translateSources] at h
      rcases h with h | h
      · exact h
      · exact ih x (by simpa [translateSources] using h)

lemma translationPass_noSleep (env : TranscriptEnv) (title : String)
    (n : Nat) (first : Transcript) :
    ∀ sl : List String,
    hasSleep (translationPass env title n first sl) = false := by
  intro sl
  induction sl with
  | nil => simp [translationPass, hasSleep]
  | cons lang rest ih =>
    cases htr : env.translateResult first lang with
    | ok content =>
      rw [translationPass_cons_ok env title n first lang rest content htr]
      simp [hasSleep] at ih ⊢
      exact ih
    | error msg =>
      rw [translationPass_cons_err env title n first lang rest msg htr]
      simp [hasSleep] at ih ⊢
      exact ih

lemma directPass_noSleep (env : TranscriptEnv) (title : String) (n : Nat) :
    ∀ (ts : List Transcript) (dl sl : List String),
    hasSleep (directPass env title n ts dl sl).2.2 = false := by
  intro ts
  induction ts with
  | nil => intro dl sl; simp [directPass, hasSleep]
  | cons t rest ih =>
    intro dl sl
    by_cases hmem : t.language_code ∈ sl
    · cases hfr : env.fetchResult t with
      | ok content =>
        rw [directPass_cons_ok env title n t rest dl sl hmem content hfr]
        dsimp only
        simp [hasSleep] at ih ⊢
        exact ih _ _
      | error msg =>
        rw [directPass_cons_err env title n t rest dl sl hmem msg hfr]
        dsimp only
        simp [hasSleep] at ih ⊢
        exact ih _ _
    · rw [directPass_cons_skip env title n t rest dl sl hmem]
      exact ih _ _

lemma directPass_translateTargets (env : TranscriptEnv) (title : String)
    (n : Nat) :
    ∀ (ts : List Transcript) (dl sl : List String),
    translateTargets (directPass env title n ts dl sl).2.2 = [] := by
  intro ts
  induction ts with
  | nil => intro dl sl; simp [directPass, translateTargets]
  | cons t rest ih =>
    intro dl sl
    by_cases hmem : t.language_code ∈ sl
    · cases hfr : env.fetchResult t with
      | ok content =>
        rw [directPass_cons_ok env title n t rest dl sl hmem content hfr]
        dsimp only
        simp [translateTargets] at ih ⊢
        exact ih _ _
      | error msg =>
        rw [directPass_cons_err env title n t rest dl sl hmem msg hfr]
        dsimp only
        simp [translateTargets] at ih ⊢
        exact ih _ _
    · rw [directPass_cons_skip env title n t rest dl sl hmem]
      exact ih _ _

lemma directPass_fetched_mem (env : TranscriptEnv) (title : String)
    (n : Nat) :
    ∀ (ts : List Transcript) (dl sl : List String) (x : Transcript),
    x ∈ fetchedTracks (directPass env title n ts dl sl).2.2 →
      x.language_code ∈ sl := by
  intro ts
  induction ts with
  | nil => intro dl sl x h; simp [directPass, fetchedTracks] at h
  | cons t rest ih =>
    intro dl sl x h
    by_cases hmem : t.language_code ∈ sl
    · cases hfr : env.fetchResult t with
      | ok content =>
        rw [directPass_cons_ok env title n t rest dl sl hmem content hfr] at h
        dsimp only at h
        simp [fetchedTracks] at h
        rcases h with rfl | h
        · exact hmem
        · exact List.erase_subset _ _
            (ih _ _ x (by simpa [fetchedTracks] using h))
      | error msg =>
        rw [directPass_cons_err env title n t rest dl sl hmem msg hfr] at h
        dsimp only at h
        simp [fetchedTracks] at h
        rcases h with rfl | h
        · exact hmem
        · exact ih _ _ x (by simpa [fetchedTracks] using h)
    · rw [directPass_cons_skip env title n t rest dl sl hmem] at h
      exact ih _ _ x h

lemma translationPass_noFetch (env : TranscriptEnv) (title : String)
    (n : Nat) (first : Transcript) :
    ∀ sl : List String,
    fetchedTracks (translationPass env title n first sl) = [] := by
  intro sl
  induction sl with
  | nil => simp [translationPass, fetchedTracks]
  | cons lang rest ih =>
    cases htr : env.translateResult first lang with
    | ok content =>
      rw [translationPass_cons_ok env title n first lang rest content htr]
      simp [fetchedTracks] at ih ⊢
      exact ih
    | error msg =>
      rw [translationPass_cons_err env title n first lang rest msg htr]
      simp [fetchedTracks] at ih ⊢
      exact ih

lemma dss_tracks (env : TranscriptEnv) (ts : List Transcript)
    (reqs : List String) (title : String) (idx total : Nat) (rev : Bool) :
    download_single_subtitle env (.tracks ts) reqs title idx total rev =
      (⟨true, none,
         (directPass env title (numberedIdx idx total rev) ts [] reqs).1⟩,
       (directPass env title (numberedIdx idx total rev) ts [] reqs).2.2 ++
         (if (directPass env title (numberedIdx idx total rev) ts []
              reqs).2.1 = [] then []
          else
            match ts.head? with
            | some first =>
              translationPass env title (numberedIdx idx total rev) first
                (directPass env title (numberedIdx idx total rev) ts []
                  reqs).2.1
            | none => [])) := rfl

/-! ## Concrete fixtures used by the claims -/

/-- A manually created English track. -/
def enManual : Transcript := ⟨"en", false, true⟩

/-- An auto-generated English track. -/
def enGenerated : Transcript := ⟨"en", true, true⟩

/-- A manually created Persian track. -/
def faManual : Transcript := ⟨"fa", false, true⟩

/-- An auto-generated Persian track. -/
def faGenerated : Transcript := ⟨"fa", true, true⟩

/-- An auto-generated region-suffixed Persian track. -/
def faIRGenerated : Transcript := ⟨"fa-IR", true, true⟩

/-- An auto-generated US-English track. -/
def enUSGenerated : Transcript := ⟨"en-US", true, true⟩

/-- A manually created German track. -/
def deManual : Transcript := ⟨"de", false, true⟩

/-- Collaborator oracle in which every fetch succeeds and translation
fails exactly for the languages in `failLangs`. -/
def envOkExcept (failLangs : List String) : TranscriptEnv where
  fetchResult := fun t => .ok ("SRT(" ++ t.language_code ++ ")")
  translateResult := fun _ lang =>
    if failLangs.contains lang then .error ("Translate failed: " ++ lang)
    else .ok ("TR(" ++ lang ++ ")")

/-- Collaborator oracle in which every fetch succeeds and translating
into `az` fails with a throttling message. -/
def env429 : TranscriptEnv where
  fetchResult := fun t => .ok ("SRT(" ++ t.language_code ++ ")")
  translateResult := fun _ lang =>
    if lang = "az" then
      .error "YouTube is receiving too many requests (429 Too Many Requests)"
    else .ok ("TR(" ++ lang ++ ")")

/-! ## C1 — completeness of the per-language outcome -/

/-- C1, counterexample: the claim says every requested language ends in
exactly one of saved-directly / saved-via-translation /
failed-with-a-recorded-reason, never silently absent.  With requested
`["en","fa"]`, a single manual `en` track and a translation failure for
`fa`, the run saves `en` directly, writes no file for `fa`, and returns
the dictionary `{'success': True, 'downloaded': {'en'}}` with no error and
no per-language failure record of any kind: `fa` is silently absent from
the result (the failure is only written to the debug log). -/
theorem C1_counterexample :
    (download_single_subtitle (envOkExcept ["fa"]) (.tracks [enManual])
        ["en", "fa"] "T" 1 1 false).1 =
      ⟨true, none, ["en"]⟩ ∧
    writtenLangs (download_single_subtitle (envOkExcept ["fa"])
        (.tracks [enManual]) ["en", "fa"] "T" 1 1 false).2 = ["en"] ∧
    ("fa" ∈ (download_single_subtitle (envOkExcept ["fa"])
        (.tracks [enManual]) ["en", "fa"] "T" 1 1 false).1.downloaded)
      = False ∧
    ("fa" ∈ writtenLangs (download_single_subtitle (envOkExcept ["fa"])
        (.tracks [enManual]) ["en", "fa"] "T" 1 1 false).2) = False ∧
    (download_single_subtitle (envOkExcept ["fa"]) (.tracks [enManual])
        ["en", "fa"] "T" 1 1 false).1.error = none := by
  refine ⟨by decide, by decide, ?_, ?_, by decide⟩ <;>
    simp only [eq_iff_iff, iff_false] <;> decide

lemma dss_return (env : TranscriptEnv) (ts : List Transcript)
    (reqs : List String) (title : String) (idx total : Nat) (rev : Bool) :
    (download_single_subtitle env (.tracks ts) reqs title idx total rev).1 =
      ⟨true, none,
        (directPass env title (numberedIdx idx total rev) ts [] reqs).1⟩ :=
  by rw [dss_tracks]

lemma dss_targets (env : TranscriptEnv) (first : Transcript)
    (rest : List Transcript) (reqs : List String) (title : String)
    (idx total : Nat) (rev : Bool) :
    translateTargets (download_single_subtitle env (.tracks (first :: rest))
        reqs title idx total rev).2 =
      (directPass env title (numberedIdx idx total rev) (first :: rest) []
        reqs).2.1 := by
  rw [dss_tracks]
  dsimp only
  rw [translateTargets, List.filterMap_append, ← translateTargets,
    ← translateTargets, directPass_translateTargets]
  by_cases hrem : (directPass env title (numberedIdx idx total rev)
      (first :: rest) [] reqs).2.1 = []
  · rw [if_pos hrem, hrem]
    simp [translateTargets]
  · rw [if_neg hrem]
    simp only [List.head?_cons]
    rw [translationPass_targets]
    simp

lemma dss_writtenLangs (env : TranscriptEnv) (first : Transcript)
    (rest : List Transcript) (reqs : List String) (title : String)
    (idx total : Nat) (rev : Bool) (hnd : reqs.Nodup) :
    writtenLangs (download_single_subtitle env (.tracks (first :: rest))
        reqs title idx total rev).2 =
      (directPass env title (numberedIdx idx total rev) (first :: rest) []
        reqs).1 ++
      ((directPass env title (numberedIdx idx total rev) (first :: rest) []
        reqs).2.1).filter (translateOk env first) := by
  rw [dss_tracks]
  dsimp only
  rw [writtenLangs, List.filterMap_append, ← writtenLangs, ← writtenLangs]
  have hdisj0 : ∀ L, L ∈ ([] : List String) → ¬ L ∈ reqs := by
    intro L h
    simp at h
  have hdwrit := directPass_writtenLangs env title (numberedIdx idx total
    rev) (first :: rest) [] reqs hnd hdisj0
  simp only [List.nil_append] at hdwrit
  rw [hdwrit]
  by_cases hrem : (directPass env title (numberedIdx idx total rev)
      (first :: rest) [] reqs).2.1 = []
  · rw [if_pos hrem, hrem]
    simp [writtenLangs]
  · rw [if_neg hrem]
    simp only [List.head?_cons]
    rw [translationPass_writtenLangs]

/-- C1, amended: for a duplicate-free request list and a non-empty track
list, the run always reports success with no error; the requested
languages are exactly partitioned between the directly-downloaded set and
the translation targets (no language is in both, none is lost between the
two passes); and no language is written twice.  What the claim wrongly
adds is a failed-with-recorded-reason outcome: a translation failure
leaves its language absent from the returned dictionary
(cf. `C1_counterexample`). -/
theorem C1_amended (env : TranscriptEnv) (ts : List Transcript)
    (reqs : List String) (title : String) (idx total : Nat) (rev : Bool)
    (hnd : reqs.Nodup) (hts : ts ≠ []) :
    (download_single_subtitle env (.tracks ts) reqs title idx total
        rev).1.success = true ∧
    (download_single_subtitle env (.tracks ts) reqs title idx total
        rev).1.error = none ∧
    (∀ L, L ∈ reqs ↔
      (L ∈ (download_single_subtitle env (.tracks ts) reqs title idx total
          rev).1.downloaded ∨
       L ∈ translateTargets (download_single_subtitle env (.tracks ts) reqs
          title idx total rev).2)) ∧
    (∀ L, ¬ (L ∈ (download_single_subtitle env (.tracks ts) reqs title idx
          total rev).1.downloaded ∧
        L ∈ translateTargets (download_single_subtitle env (.tracks ts)
          reqs title idx total rev).2)) ∧
    (writtenLangs (download_single_subtitle env (.tracks ts) reqs title idx
        total rev).2).Nodup := by
  obtain ⟨first, rest, rfl⟩ : ∃ f r, ts = f :: r := by
    cases ts with
    | nil => exact absurd rfl hts
    | cons f r => exact ⟨f, r, rfl⟩
  have hdisj0 : ∀ L, L ∈ ([] : List String) → ¬ L ∈ reqs := by
    intro L h
    simp at h
  have hcover := directPass_mem_iff env title (numberedIdx idx total rev)
    (first :: rest) [] reqs
  have hdisjoint := directPass_disjoint env title
    (numberedIdx idx total rev) (first :: rest) [] reqs hnd hdisj0
  have hdnodup := directPass_downloaded_nodup env title
    (numberedIdx idx total rev) (first :: rest) [] reqs List.nodup_nil
  have hslnodup := directPass_sublangs_nodup env title
    (numberedIdx idx total rev) (first :: rest) [] reqs hnd
  refine ⟨by rw [dss_return], by rw [dss_return], ?_, ?_, ?_⟩
  · intro L
    rw [dss_return, dss_targets]
    have hc := hcover L
    simp only [List.not_mem_nil, false_or] at hc
    exact hc.symm
  · intro L ⟨h1, h2⟩
    rw [dss_return] at h1
    rw [dss_targets] at h2
    exact hdisjoint L h1 h2
  · rw [dss_writtenLangs env first rest reqs title idx total rev hnd]
    rw [List.nodup_append]
    refine ⟨hdnodup, List.Nodup.filter _ hslnodup, ?_⟩
    intro L h1 h2
    exact hdisjoint L h1 (List.mem_of_mem_filter h2)

/-- C1 amended, witness: the amended statement instantiated at the
counterexample's input (requested `["en","fa"]`, one manual `en` track,
translation failing for `fa`). -/
theorem C1_amended_witness :
    (["en", "fa"] : List String).Nodup ∧
    ([enManual] : List Transcript) ≠ [] ∧
    ((download_single_subtitle (envOkExcept ["fa"]) (.tracks [enManual])
        ["en", "fa"] "T" 1 1 false).1.success = true ∧
    (download_single_subtitle (envOkExcept ["fa"]) (.tracks [enManual])
        ["en", "fa"] "T" 1 1 false).1.error = none ∧
    (∀ L, L ∈ (["en", "fa"] : List String) ↔
      (L ∈ (download_single_subtitle (envOkExcept ["fa"])
          (.tracks [enManual]) ["en", "fa"] "T" 1 1 false).1.downloaded ∨
       L ∈ translateTargets (download_single_subtitle (envOkExcept ["fa"])
          (.tracks [enManual]) ["en", "fa"] "T" 1 1 false).2)) ∧
    (∀ L, ¬ (L ∈ (download_single_subtitle (envOkExcept ["fa"])
          (.tracks [enManual]) ["en", "fa"] "T" 1 1 false).1.downloaded ∧
        L ∈ translateTargets (download_single_subtitle (envOkExcept ["fa"])
          (.tracks [enManual]) ["en", "fa"] "T" 1 1 false).2)) ∧
    (writtenLangs (download_single_subtitle (envOkExcept ["fa"])
        (.tracks [enManual]) ["en", "fa"] "T" 1 1 false).2).Nodup) :=
  ⟨by decide, by decide,
    C1_amended (envOkExcept ["fa"]) [enManual] ["en", "fa"] "T" 1 1 false
      (by decide) (by decide)⟩

lemma directPass_translateSources (env : TranscriptEnv) (title : String)
    (n : Nat) :
    ∀ (ts : List Transcript) (dl sl : List String),
    translateSources (directPass env title n ts dl sl).2.2 = [] := by
  intro ts
  induction ts with
  | nil => intro dl sl; simp [directPass, translateSources]
  | cons t rest ih =>
    intro dl sl
    by_cases hmem : t.language_code ∈ sl
    · cases hfr : env.fetchResult t with
      | ok content =>
        rw [directPass_cons_ok env title n t rest dl sl hmem content hfr]
        dsimp only
        simp [translateSources] at ih ⊢
        exact ih _ _
      | error msg =>
        rw [directPass_cons_err env title n t rest dl sl hmem msg hfr]
        dsimp only
        simp [translateSources] at ih ⊢
        exact ih _ _
    · rw [directPass_cons_skip env title n t rest dl sl hmem]
      exact ih _ _

/-! ## C2 — translation-source selection -/

/-- C2, counterexample: the claim says the translation source follows the
priority order manual-English, generated-English, any-manual,
any-translatable.  With the available tracks `[de manual, en manual]` that
priority picks the `en` manual track, but the engine translates from the
`de` track: the code takes `next((t for t in transcript_list), None)` —
the first listed track — with no priority logic at all. -/
theorem C2_counterexample :
    translateSources (download_single_subtitle (envOkExcept [])
        (.tracks [deManual, enManual]) ["fa"] "T" 1 1 false).2 = ["de"] ∧
    (selectSource_spec [deManual, enManual]).map Transcript.language_code =
      some "en" ∧
    (firstTranscript [deManual, enManual]).map Transcript.language_code =
      some "de" ∧
    ("de" : String) ≠ "en" := by
  refine ⟨by decide, by decide, by decide, by decide⟩

/-- C2, amended: the single translation source is simply the first track
in collaborator iteration order, regardless of its language, creation
type, or `isTranslatable` flag (and there is none only when the track
list is empty).  On the claim's own example `[en manual, en-US generated,
de manual]` this happens to coincide with the claimed priority: the `en`
manual track is the source. -/
theorem C2_amended :
    (∀ (env : TranscriptEnv) (ts : List Transcript) (reqs : List String)
      (title : String) (idx total : Nat) (rev : Bool) (s : String),
      s ∈ translateSources (download_single_subtitle env (.tracks ts) reqs
          title idx total rev).2 →
        (firstTranscript ts).map Transcript.language_code = some s) ∧
    translateSources (download_single_subtitle (envOkExcept [])
        (.tracks [enManual, enUSGenerated, deManual]) ["az", "fa"] "T" 1 1
        false).2 = ["en", "en"] := by
  constructor
  · intro env ts reqs title idx total rev s h
    rw [dss_tracks] at h
    dsimp only at h
    rw [translateSources, List.filterMap_append, ← translateSources,
      ← translateSources, directPass_translateSources] at h
    simp only [List.nil_append] at h
    by_cases hrem : (directPass env title (numberedIdx idx total rev) ts []
        reqs).2.1 = []
    · rw [if_pos hrem] at h
      simp [translateSources] at h
    · rw [if_neg hrem] at h
      cases hh : ts.head? with
      | none =>
        rw [hh] at h
        simp [translateSources] at h
      | some first =>
        rw [hh] at h
        have hs := translationPass_sources env title
          (numberedIdx idx total rev) first _ s h
        rw [firstTranscript, hh, hs]
        rfl
  · decide

/-- C2 amended, witness: on the claim's example tracks the first-listed
track is the `en` manual one, and it is the source of every translation
call. -/
theorem C2_amended_witness :
    ("en" ∈ translateSources (download_single_subtitle (envOkExcept [])
        (.tracks [enManual, enUSGenerated, deManual]) ["az", "fa"] "T" 1 1
        false).2) ∧
    (firstTranscript [enManual, enUSGenerated, deManual]).map
      Transcript.language_code = some "en" :=
  ⟨by decide,
   C2_amended.1 (envOkExcept []) [enManual, enUSGenerated, deManual]
     ["az", "fa"] "T" 1 1 false "en" (by decide)⟩

/-! ## C3 — direct-match policy -/

/-- C3, counterexample: the claim says the direct pass prefers a
manually-created track over a generated one for the same language and
falls back to code-prefix matching.  (a) With tracks
`[fa generated, fa manual]` and requested `["fa"]`, the engine fetches
and saves the generated track (the first one listed), not the manual
one.  (b) With the single track `fa-IR generated` and requested `["fa"]`
(translation made to fail), the direct pass writes nothing at all — there
is no `code.startswith(L + "-")` prefix matching; the language is handed
to the translation pass instead. -/
theorem C3_counterexample :
    fetchedTracks (download_single_subtitle (envOkExcept [])
        (.tracks [faGenerated, faManual]) ["fa"] "T" 1 1 false).2 =
      [faGenerated] ∧
    faGenerated.is_generated = true ∧
    faManual.is_generated = false ∧
    writtenFiles (download_single_subtitle (envOkExcept ["fa"])
        (.tracks [faIRGenerated]) ["fa"] "T" 1 1 false).2 = [] ∧
    translateTargets (download_single_subtitle (envOkExcept ["fa"])
        (.tracks [faIRGenerated]) ["fa"] "T" 1 1 false).2 = ["fa"] := by
  refine ⟨by decide, by decide, by decide, by decide, by decide⟩

/-- C3, amended: the direct pass matches a track only when its code is
*exactly* equal to a (still outstanding) requested language — every track
it fetches has its code in the requested list, so there is no prefix
matching and no manual-over-generated preference (the first track in
collaborator order wins).  On the claim's example `["fa-IR" generated,
"fa" manual]` with requested `["fa"]` the manual exact-match track is
indeed selected, deterministically — but only because `fa-IR` fails the
exact-equality test. -/
theorem C3_amended :
    (∀ (env : TranscriptEnv) (ts : List Transcript) (reqs : List String)
      (title : String) (idx total : Nat) (rev : Bool) (x : Transcript),
      x ∈ fetchedTracks (download_single_subtitle env (.tracks ts) reqs
          title idx total rev).2 →
        x.language_code ∈ reqs) ∧
    fetchedTracks (download_single_subtitle (envOkExcept [])
        (.tracks [faIRGenerated, faManual]) ["fa"] "T" 1 1 false).2 =
      [faManual] := by
  constructor
  · intro env ts reqs title idx total rev x h
    rw [dss_tracks] at h
    dsimp only at h
    rw [fetchedTracks, List.filterMap_append, ← fetchedTracks,
      ← fetchedTracks] at h
    rw [List.mem_append] at h
    rcases h with h | h
    · exact directPass_fetched_mem env title (numberedIdx idx total rev) ts
        [] reqs x h
    · exfalso
      revert h
      by_cases hrem : (directPass env title (numberedIdx idx total rev) ts
          [] reqs).2.1 = []
      · rw [if_pos hrem]
        simp [fetchedTracks]
      · rw [if_neg hrem]
        cases hh : ts.head? with
        | none => simp [fetchedTracks]
        | some first =>
          rw [translationPass_noFetch]
          simp
  · decide

/-- C3 amended, witness: every fetched track of the example run has its
language code in the requested list. -/
theorem C3_amended_witness :
    (faManual ∈ fetchedTracks (download_single_subtitle (envOkExcept [])
        (.tracks [faIRGenerated, faManual]) ["fa"] "T" 1 1 false).2) ∧
    faManual.language_code ∈ (["fa"] : List String) :=
  ⟨by decide,
   C3_amended.1 (envOkExcept []) [faIRGenerated, faManual] ["fa"] "T" 1 1
     false faManual (by decide)⟩

/-! ## C4 — partial-failure isolation -/

/-- C4, counterexample: with requested `["az","en","fa","tr"]`, a manual
`en` track, and translation failing only for `az`, the other three
languages are saved and the run reports success, as the claim says — but
the returned dictionary is exactly `{'success': True, 'downloaded':
{'en'}}`: `az` is not "listed in the per-language failure map" because no
failure map exists anywhere in the result; the failure is only logged at
debug level. -/
theorem C4_counterexample :
    (download_single_subtitle (envOkExcept ["az"]) (.tracks [enManual])
        ["az", "en", "fa", "tr"] "T" 1 1 false).1 = ⟨true, none, ["en"]⟩ ∧
    writtenLangs (download_single_subtitle (envOkExcept ["az"])
        (.tracks [enManual]) ["az", "en", "fa", "tr"] "T" 1 1 false).2 =
      ["en", "fa", "tr"] ∧
    ¬ ("az" ∈ writtenLangs (download_single_subtitle (envOkExcept ["az"])
        (.tracks [enManual]) ["az", "en", "fa", "tr"] "T" 1 1 false).2) ∧
    ¬ ("az" ∈ (download_single_subtitle (envOkExcept ["az"])
        (.tracks [enManual]) ["az", "en", "fa", "tr"] "T" 1 1
        false).1.downloaded) := by
  refine ⟨by decide, by decide, by decide, by decide⟩

/-- C4, amended: translation failures are isolated per language — the
languages written by the translation pass are exactly those whose own
translation succeeds (each language's outcome depends only on its own
translation result, so one failure never aborts the others) — and the
run's returned status is success regardless of any translation failures.
The failing language, however, is only logged, never listed in any
per-language failure map (no such map exists in the result,
cf. `C4_counterexample`). -/
theorem C4_amended :
    (∀ (env : TranscriptEnv) (title : String) (n : Nat)
      (first : Transcript) (sl : List String),
      writtenLangs (translationPass env title n first sl) =
        sl.filter (translateOk env first)) ∧
    (∀ (env : TranscriptEnv) (ts : List Transcript) (reqs : List String)
      (title : String) (idx total : Nat) (rev : Bool),
      (download_single_subtitle env (.tracks ts) reqs title idx total
        rev).1.success = true) :=
  ⟨fun env title n first sl =>
    translationPass_writtenLangs env title n first sl,
   fun env ts reqs title idx total rev => by rw [dss_return]⟩

/-! ## C5 — transcripts disabled -/

/-- C5, counterexample: when the collaborator reports transcripts
disabled, the claim says every requested language is marked failed with
reason "unavailable".  The run instead returns a single video-level
dictionary `{'success': False, 'error': 'Subtitles disabled'}` with an
empty downloaded set, no events, and no per-language marker of any kind;
the error string is not "unavailable". -/
theorem C5_counterexample :
    download_single_subtitle (envOkExcept []) .transcriptsDisabled
        ["az", "en", "fa", "tr"] "T" 1 1 false =
      (⟨false, some "Subtitles disabled", []⟩, []) ∧
    (download_single_subtitle (envOkExcept []) .transcriptsDisabled
        ["az", "en", "fa", "tr"] "T" 1 1 false).1.error ≠
      some "unavailable" := by
  refine ⟨by decide, by decide⟩

/-- C5, amended: on transcripts-disabled the routine returns immediately
(no retry, no events) with the single video-level failure
`error = "Subtitles disabled"` — not a per-language "unavailable" map —
and the task's download portion reports success independently of
whatever the subtitle runs produced: `_process_single_url` discards the
subtitle outcomes and returns success whenever the URL passes the
dedup gate. -/
theorem C5_amended :
    (∀ (env : TranscriptEnv) (reqs : List String) (title : String)
      (idx total : Nat) (rev : Bool),
      download_single_subtitle env .transcriptsDisabled reqs title idx
          total rev =
        (⟨false, some "Subtitles disabled", []⟩, [])) ∧
    (∀ (v : String) (urls : List String)
      (subs : List (SubReturn × List SubEvent)),
      ¬ (("https://www.youtube.com/watch?v=" ++ v) ∈ urls) →
        (processSingleUrl (some v) (.ok ()) urls false subs).1 =
          .success) := by
  constructor
  · intro env reqs title idx total rev
    rfl
  · intro v urls subs h
    simp [processSingleUrl, createFolderGate, h]

/-- C5 amended, witness: a task whose subtitle run failed with
"Subtitles disabled" still has task status success. -/
theorem C5_amended_witness :
    ¬ (("https://www.youtube.com/watch?v=" ++ "abc") ∈
        ([] : List String)) ∧
    (processSingleUrl (some "abc") (.ok ()) [] false
      [download_single_subtitle (envOkExcept []) .transcriptsDisabled
        ["az", "en", "fa", "tr"] "T" 1 1 false]).1 = .success :=
  ⟨by decide,
   C5_amended.2 "abc" []
     [download_single_subtitle (envOkExcept []) .transcriptsDisabled
       ["az", "en", "fa", "tr"] "T" 1 1 false] (by decide)⟩

/-! ## C6 — subtitle file naming -/

lemma directPass_write_name (env : TranscriptEnv) (title : String)
    (n : Nat) :
    ∀ (ts : List Transcript) (dl sl : List String)
      (lang name content : String),
    SubEvent.writeFile lang name content ∈
        (directPass env title n ts dl sl).2.2 →
      name = srtName n title lang := by
  intro ts
  induction ts with
  | nil => intro dl sl lang name content h; simp [directPass] at h
  | cons t rest ih =>
    intro dl sl lang name content h
    by_cases hmem : t.language_code ∈ sl
    · cases hfr : env.fetchResult t with
      | ok c2 =>
        rw [directPass_cons_ok env title n t rest dl sl hmem c2 hfr] at h
        dsimp only at h
        rcases List.mem_cons.mp h with h | h
        · exact absurd h (by simp)
        · rcases List.mem_cons.mp h with h | h
          · obtain ⟨h1, h2, h3⟩ := SubEvent.writeFile.inj h
            rw [h2, h1]
          · exact ih _ _ _ _ _ h
      | error msg =>
        rw [directPass_cons_err env title n t rest dl sl hmem msg hfr] at h
        dsimp only at h
        rcases List.mem_cons.mp h with h | h
        · exact absurd h (by simp)
        · rcases List.mem_cons.mp h with h | h
          · exact absurd h (by simp)
          · exact ih _ _ _ _ _ h
    · rw [directPass_cons_skip env title n t rest dl sl hmem] at h
      exact ih _ _ _ _ _ h

lemma translationPass_write_name (env : TranscriptEnv) (title : String)
    (n : Nat) (first : Transcript) :
    ∀ (sl : List String) (lang name content : String),
    SubEvent.writeFile lang name content ∈
        translationPass env title n first sl →
      name = srtName n title lang := by
  intro sl
  induction sl with
  | nil => intro lang name content h; simp [translationPass] at h
  | cons l rest ih =>
    intro lang name content h
    cases htr : env.translateResult first l with
    | ok c2 =>
      rw [translationPass_cons_ok env title n first l rest c2 htr] at h
      rcases List.mem_cons.mp h with h | h
      · exact absurd h (by simp)
      · rcases List.mem_cons.mp h with h | h
        · obtain ⟨h1, h2, h3⟩ := SubEvent.writeFile.inj h
          rw [h2, h1]
        · exact ih _ _ _ h
    | error msg =>
      rw [translationPass_cons_err env title n first l rest msg htr] at h
      rcases List.mem_cons.mp h with h | h
      · exact absurd h (by simp)
      · rcases List.mem_cons.mp h with h | h
        · exact absurd h (by simp)
        · exact ih _ _ _ h

/-- C6, counterexample: the claim says the `.auto` infix is present if
and only if the source track was auto-generated.  A direct save from an
auto-generated `en` track produces the file `01_Title.en.srt` — no
`.auto` infix appears anywhere in the name (the code builds
`f"{numbered_idx:02d}_{title}.{lang}.srt"` unconditionally). -/
theorem C6_counterexample :
    writtenFiles (download_single_subtitle (envOkExcept [])
        (.tracks [enGenerated]) ["en"] "Title" 1 1 false).2 =
      ["01_Title.en.srt"] ∧
    enGenerated.is_generated = true ∧
    containsSubstr "01_Title.en.srt" ".auto" = false := by
  refine ⟨by decide, by decide, by decide⟩

/-- C6, amended: every persisted subtitle file is named
`sanitize_filename(f"{seq:02d}_{title}.{lang}.srt")` with no `.auto`
infix ever, independent of whether the source track was generated: a
generated-track run and a manual-track run produce identical file
names. -/
theorem C6_amended :
    (∀ (env : TranscriptEnv) (ts : List Transcript) (reqs : List String)
      (title : String) (idx total : Nat) (rev : Bool)
      (lang name content : String),
      SubEvent.writeFile lang name content ∈
          (download_single_subtitle env (.tracks ts) reqs title idx total
            rev).2 →
        name = srtName (numberedIdx idx total rev) title lang) ∧
    writtenFiles (download_single_subtitle (envOkExcept [])
        (.tracks [enGenerated]) ["en"] "Title" 1 1 false).2 =
      writtenFiles (download_single_subtitle (envOkExcept [])
        (.tracks [enManual]) ["en"] "Title" 1 1 false).2 := by
  constructor
  · intro env ts reqs title idx total rev lang name content h
    rw [dss_tracks] at h
    dsimp only at h
    rcases List.mem_append.mp h with h | h
    · exact directPass_write_name env title (numberedIdx idx total rev) ts
        [] reqs lang name content h
    · revert h
      by_cases hrem : (directPass env title (numberedIdx idx total rev) ts
          [] reqs).2.1 = []
      · rw [if_pos hrem]
        intro h
        simp at h
      · rw [if_neg hrem]
        cases hh : ts.head? with
        | none => intro h; simp at h
        | some first =>
          intro h
          exact translationPass_write_name env title
            (numberedIdx idx total rev) first _ lang name content h
  · decide

/-- C6 amended, witness: the write produced by the generated-track run
carries exactly the name the naming scheme dictates. -/
theorem C6_amended_witness :
    (SubEvent.writeFile "en" "01_Title.en.srt" "SRT(en)" ∈
      (download_single_subtitle (envOkExcept []) (.tracks [enGenerated])
        ["en"] "Title" 1 1 false).2) ∧
    "01_Title.en.srt" = srtName (numberedIdx 1 1 false) "Title" "en" :=
  ⟨by decide,
   C6_amended.1 (envOkExcept []) [enGenerated] ["en"] "Title" 1 1 false
     "en" "01_Title.en.srt" "SRT(en)" (by decide)⟩

/-! ## C7 — idempotence -/

/-- A pre-existing, non-trivially non-empty subtitle file. -/
def bigContent : String := ⟨List.replicate 300 'x'⟩

/-- A file system that already holds the target subtitle file. -/
def fs0 : FS := [("01_Title.en.srt", bigContent)]

lemma containsSubstr_already (url : String) :
    containsSubstr ("URL already downloaded: " ++ url)
      "already downloaded" = true := by
  have htl : ("URL already downloaded: " ++ url).toList =
      "URL ".toList ++ ("already downloaded".toList ++
        (": ".toList ++ url.toList)) := by
    simp [String.toList]
  unfold containsSubstr
  rw [List.any_eq_true]
  refine ⟨4, ?_, ?_⟩
  · rw [List.mem_range, htl]
    simp
  · rw [htl]
    rw [show (4 : Nat) = ("URL ".toList).length from by decide]
    rw [List.drop_left]
    rw [List.isPrefixOf_iff_prefix]
    exact List.prefix_append _ _

set_option maxRecDepth 4000 in
/-- C7, counterexample: the claim says subtitle persistence skips writing
when the target file already exists with non-trivially non-empty
content.  Starting from a file system where `01_Title.en.srt` already
holds 300 characters, the run's write replaces it: `_download_single_
subtitle` opens the file in `"w"` mode unconditionally — there is no
exists/size check anywhere in the subtitle path. -/
theorem C7_counterexample :
    getFile fs0 "01_Title.en.srt" = some bigContent ∧
    300 ≤ bigContent.length ∧
    getFile (applyWrites fs0 (download_single_subtitle (envOkExcept [])
        (.tracks [enManual]) ["en"] "Title" 1 1 false).2)
        "01_Title.en.srt" = some "SRT(en)" ∧
    ("SRT(en)" : String) ≠ bigContent := by
  refine ⟨by decide, by decide, by decide, by decide⟩

/-- C7, amended: batch-level idempotence does hold — any task whose
canonical URL is in the persisted `_urls.txt` set short-circuits to
Skipped in `_create_folder`, before any download or subtitle work, and
performs no file writes — but the file-level skip rule the claim adds
does not exist: subtitle persistence overwrites unconditionally
(cf. `C7_counterexample`). -/
theorem C7_amended (v : String) (urls : List String)
    (subs : List (SubReturn × List SubEvent))
    (h : ("https://www.youtube.com/watch?v=" ++ v) ∈ urls) :
    processSingleUrl (some v) (.ok ()) urls false subs =
      (.skipped ("URL already downloaded: " ++
        ("https://www.youtube.com/watch?v=" ++ v)), []) := by
  simp [processSingleUrl, createFolderGate, h, containsSubstr_already]

/-- C7 amended, witness: a second run over an already-logged URL is
skipped with no writes. -/
theorem C7_amended_witness :
    (("https://www.youtube.com/watch?v=" ++ "abc") ∈
      ["https://www.youtube.com/watch?v=abc"]) ∧
    processSingleUrl (some "abc") (.ok ())
        ["https://www.youtube.com/watch?v=abc"] false [] =
      (.skipped ("URL already downloaded: " ++
        ("https://www.youtube.com/watch?v=" ++ "abc")), []) :=
  ⟨by decide,
   C7_amended "abc" ["https://www.youtube.com/watch?v=abc"] []
     (by decide)⟩

/-! ## C8 — rate-limit handling -/

/-- C8, counterexample: the claim says a throttling error detected by
message inspection makes the engine pause for a cooldown of tens of
seconds before continuing.  With the collaborator failing the `az`
translation with a 429 message, the trace contains the message only as a
debug log line, contains no sleep at all, and the loop continues
immediately (the remaining languages are still written). -/
theorem C8_counterexample :
    hasSleep (download_single_subtitle env429 (.tracks [enManual])
        ["az", "en", "fa", "tr"] "T" 1 1 false).2 = false ∧
    (SubEvent.logDebug
        "YouTube is receiving too many requests (429 Too Many Requests)" ∈
      (download_single_subtitle env429 (.tracks [enManual])
        ["az", "en", "fa", "tr"] "T" 1 1 false).2) ∧
    writtenLangs (download_single_subtitle env429 (.tracks [enManual])
        ["az", "en", "fa", "tr"] "T" 1 1 false).2 = ["en", "fa", "tr"] := by
  refine ⟨by decide, by decide, by decide⟩

/-- C8, amended: the subtitle routine never sleeps, whatever the
collaborator does — a throttling error is caught like any other
exception, logged, and the per-language loop continues immediately; the
`RateLimitExceeded` exception class is defined in the module but never
raised or handled, and the only backoff loop in the module is in
`_get_video_info_with_retry` (video info, not subtitles). -/
theorem C8_amended (env : TranscriptEnv) (listRes : ListTracksResult)
    (reqs : List String) (title : String) (idx total : Nat) (rev : Bool) :
    hasSleep (download_single_subtitle env listRes reqs title idx total
      rev).2 = false := by
  cases listRes with
  | transcriptsDisabled => rfl
  | noTranscriptFound => rfl
  | tracks ts =>
    rw [dss_tracks]
    dsimp only
    rw [hasSleep, List.any_append, ← hasSleep, ← hasSleep,
      directPass_noSleep]
    rw [Bool.false_or]
    by_cases hrem : (directPass env title (numberedIdx idx total rev) ts []
        reqs).2.1 = []
    · rw [if_pos hrem]
      rfl
    · rw [if_neg hrem]
      cases hh : ts.head? with
      | none => rfl
      | some first => exact translationPass_noSleep env title _ first _

/-! ## C9 — scheduling -/

/-- C9, counterexample: the claim says batch processing is
single-threaded and sequential, one video's subtitle reconciliation
completing before the next begins.  `download_subtitles` submits every
video's subtitle task to a `ThreadPoolExecutor` before awaiting any
completion — for two videos the scheduling trace is submit, submit,
await, await, not the sequential submit, await, submit, await — and the
pool width is `MAX_WORKERS = 3`, not 1. -/
theorem C9_counterexample :
    downloadSubtitlesTrace 2 =
      [.submit 0, .submit 1, .awaitCompletion, .awaitCompletion] ∧
    downloadSubtitlesTrace 2 ≠ sequentialTrace_spec 2 ∧
    MAX_WORKERS = 3 ∧
    MAX_WORKERS ≠ 1 := by
  refine ⟨by decide, by decide, rfl, by decide⟩

/-- C9, amended: the scheduling trace of `download_subtitles` submits
all tasks to the pool first and only then waits; it coincides with the
sequential one-video-at-a-time trace exactly for batches of at most one
video. -/
theorem C9_amended (n : Nat) :
    downloadSubtitlesTrace n = sequentialTrace_spec n ↔ n ≤ 1 := by
  constructor
  · intro h
    by_contra hn
    push_neg at hn
    obtain ⟨m, rfl⟩ : ∃ m, n = m + 2 := ⟨n - 2, by omega⟩
    have h1 : (downloadSubtitlesTrace (m + 2))[1]? =
        some (ExecEvent.submit 1) := by
      unfold downloadSubtitlesTrace
      have h12 : (1 : Nat) < m + 2 := by omega
      rw [List.getElem?_append_left (by simp [h12])]
      simp [List.getElem?_map, List.getElem?_range, h12]
    have h2 : (sequentialTrace_spec (m + 2))[1]? =
        some ExecEvent.awaitCompletion := by
      unfold sequentialTrace_spec
      rw [List.range_succ_eq_map, List.map_cons, List.flatten_cons]
      rw [List.getElem?_append_left (by simp)]
      rfl
    rw [h, h2] at h1
    simp at h1
  · intro h
    interval_cases n <;> decide

end Gorendir
